import Mathlib

/-!
Shallow embedding of `src/module/memories.rs`: the linear memories of a wasm
module, their initializer data, the tombstone arena that stores them, and the
parse/emit adapters for the binary memory section.  External collaborators that
the source file uses but that are not part of the file (the tombstone arena,
the byte encoder, the initializer-expression type, the section decoder) are
modelled from the specification, each marked as such in its doc comment.
-/

/-- Stable identifier of a `Memory`: the index of its arena slot. -/
abbrev MemoryId := Nat

/-- Identifier of a global variable, owned by an external registry. -/
abbrev GlobalId := Nat

/-- Identifier of an import record, owned by an external registry. -/
abbrev ImportId := Nat

/-- Modelled from the spec: the generic initializer-expression type
(`crate::ir::InitExpr`, not under `src/`): either a constant 32-bit value or a
reference to a global whose run-time value supplies the offset. -/
inductive InitExpr where
  | Const (v : Int)
  | Global (g : GlobalId)
deriving DecidableEq

/-- Rust `pos as i32` on a `u32` value: two's-complement reinterpretation. -/
def u32_as_i32 (n : Nat) : Int :=
  if n < 2 ^ 31 then (n : Int) else (n : Int) - 2 ^ 32

/-- Source `MemoryData`: the initializer segments of one memory — absolute segments
(fixed numeric offset, byte payload) and global-relative segments (global
reference, byte payload), each sequence in insertion order. -/
structure MemoryData where
  absolute : List (Nat × List Nat)
  relative : List (GlobalId × List Nat)
deriving DecidableEq

/-- Source `MemoryData::default()`: both segment sequences empty. -/
def MemoryData.default : MemoryData := ⟨[], []⟩

/-- A linear memory of the module (`Memory` in the source): descriptor fields
plus its initializer data.  `importRef` is the `import` field of the source. -/
structure Memory where
  id : MemoryId
  shared : Bool
  initial : Nat
  maximum : Option Nat
  importRef : Option ImportId
  data : MemoryData
deriving DecidableEq

/-- Source `MemoryData::add_absolute`: append a segment at a fixed offset. -/
def MemoryData.add_absolute (d : MemoryData) (pos : Nat) (bytes : List Nat) : MemoryData :=
  { d with absolute := d.absolute ++ [(pos, bytes)] }

/-- Source `MemoryData::add_relative`: append a segment whose offset is a global. -/
def MemoryData.add_relative (d : MemoryData) (g : GlobalId) (bytes : List Nat) : MemoryData :=
  { d with relative := d.relative ++ [(g, bytes)] }

/-- Source `MemoryData::globals`: the globals referenced by relative segments. -/
def MemoryData.globals (d : MemoryData) : List GlobalId :=
  d.relative.map Prod.fst

/-- Source `MemoryData::is_empty`. -/
def MemoryData.is_empty (d : MemoryData) : Bool :=
  d.absolute.isEmpty && d.relative.isEmpty

/-- Source `MemoryData::into_iter`: all absolute segments (insertion order) as
constant-offset pairs, then all relative segments (insertion order) as
global-reference pairs. -/
def MemoryData.into_iter (d : MemoryData) : List (InitExpr × List Nat) :=
  d.absolute.map (fun p => (InitExpr.Const (u32_as_i32 p.1), p.2)) ++
    d.relative.map (fun p => (InitExpr.Global p.1, p.2))

/-- Source `Tombstone::on_delete` for `Memory`: reset the initializer data. -/
def Memory.on_delete (m : Memory) : Memory :=
  { m with data := MemoryData.default }

/-- Source `Memory::emit_data`: absolute segments first (as `i32`-cast constants),
then relative segments, each group in insertion order. -/
def Memory.emit_data (m : Memory) : List (InitExpr × List Nat) :=
  m.data.absolute.map (fun p => (InitExpr.Const (u32_as_i32 p.1), p.2)) ++
    m.data.relative.map (fun p => (InitExpr.Global p.1, p.2))

/-- Modelled from the spec: the byte-encoder collaborator (`crate::emit`, not
under `src/`) writes `u32`/`usize` values as unsigned variable-length (LEB128)
integers. -/
def uleb128 (n : Nat) : List Nat :=
  if n < 128 then [n] else (n % 128 + 128) :: uleb128 (n / 128)
termination_by n
decreasing_by exact Nat.div_lt_self (by omega) (by omega)

/-- Source `impl Emit for Memory`: one flags byte, then `initial`, then — when a
maximum is present — `maximum`. -/
def Memory.emit (m : Memory) : List Nat :=
  match m.maximum with
  | some mx => (if m.shared then 0x03 else 0x01) :: (uleb128 m.initial ++ uleb128 mx)
  | none => 0x00 :: uleb128 m.initial

/-- Modelled from the spec: one slot of the tombstone arena
(`crate::tombstone_arena`, not under `src/`) — live with a record, or
tombstoned, retaining only the finalized record of a deleted entity. -/
inductive Slot where
  | live (m : Memory)
  | dead (m : Memory)
deriving DecidableEq

/-- Modelled from the spec: the tombstone arena is a growable indexed sequence
of slots; ids are plain indices with pointer-like permanence, never reused. -/
structure TombstoneArena where
  slots : List Slot
deriving DecidableEq

/-- Modelled from the spec: `next_id` returns the id the next allocation will
receive. -/
def TombstoneArena.next_id (a : TombstoneArena) : MemoryId :=
  a.slots.length

/-- Modelled from the spec: `alloc` stores the record at the reserved id. -/
def TombstoneArena.alloc (a : TombstoneArena) (m : Memory) : TombstoneArena :=
  ⟨a.slots ++ [Slot.live m]⟩

/-- Modelled from the spec: indexing the arena; `none` models the abort on an
out-of-range or tombstoned id (a programming error, not a recoverable one). -/
def TombstoneArena.get (a : TombstoneArena) (id : MemoryId) : Option Memory :=
  match a.slots[id]? with
  | some (Slot.live m) => some m
  | _ => none

/-- Modelled from the spec: `delete` marks the slot tombstoned and invokes the
finalization hook `on_delete` exactly once on the record. -/
def TombstoneArena.delete (a : TombstoneArena) (id : MemoryId) : TombstoneArena :=
  match a.slots[id]? with
  | some (Slot.live m) => ⟨a.slots.set id (Slot.dead (Memory.on_delete m))⟩
  | _ => a

/-- Live `(id, record)` pairs of a slot list, ascending from index `k`. -/
def iterAux : Nat → List Slot → List (Nat × Memory)
  | _, [] => []
  | i, Slot.live m :: rest => (i, m) :: iterAux (i + 1) rest
  | i, Slot.dead _ :: rest => iterAux (i + 1) rest

/-- Modelled from the spec: arena iteration over live slots only, in ascending
allocation order. -/
def TombstoneArena.iterPairs (a : TombstoneArena) : List (Nat × Memory) :=
  iterAux 0 a.slots

/-- Source `ModuleMemories`: the arena-backed owner of all memories of a module. -/
structure ModuleMemories where
  arena : TombstoneArena
deriving DecidableEq

/-- Source `ModuleMemories::default()`: an empty collection. -/
def ModuleMemories.empty : ModuleMemories := ⟨⟨[]⟩⟩

/-- Source `ModuleMemories::add_import`: allocate an imported memory with empty
initializer data; returns the new id and the updated collection. -/
def ModuleMemories.add_import (mm : ModuleMemories) (shared : Bool) (initial : Nat)
    (maximum : Option Nat) (imp : ImportId) : MemoryId × ModuleMemories :=
  let id := mm.arena.next_id
  (id, ⟨mm.arena.alloc ⟨id, shared, initial, maximum, some imp, MemoryData.default⟩⟩)

/-- Source `ModuleMemories::add_local`: allocate a non-imported memory with empty
initializer data; returns the new id and the updated collection. -/
def ModuleMemories.add_local (mm : ModuleMemories) (shared : Bool) (initial : Nat)
    (maximum : Option Nat) : MemoryId × ModuleMemories :=
  let id := mm.arena.next_id
  (id, ⟨mm.arena.alloc ⟨id, shared, initial, maximum, none, MemoryData.default⟩⟩)

/-- Source `ModuleMemories::get` (delegates to the arena). -/
def ModuleMemories.get (mm : ModuleMemories) (id : MemoryId) : Option Memory :=
  mm.arena.get id

/-- Source `ModuleMemories::delete` (delegates to the arena; no external cleanup). -/
def ModuleMemories.delete (mm : ModuleMemories) (id : MemoryId) : ModuleMemories :=
  ⟨mm.arena.delete id⟩

/-- Source `ModuleMemories::iter`: the live memories, in stable allocation order. -/
def ModuleMemories.iterList (mm : ModuleMemories) : List Memory :=
  mm.arena.iterPairs.map Prod.snd

/-- Source `impl Emit for ModuleMemories`: `none` when there is no non-imported
memory (the section is omitted entirely); otherwise the section body — the
count of non-imported memories followed by their encodings in live-iteration
order — paired with the ids pushed into the index-mapping table. -/
def ModuleMemories.emitSection (mm : ModuleMemories) : Option (List Nat × List MemoryId) :=
  if (mm.iterList.filter (fun m => m.importRef.isNone)).length = 0 then none
  else
    some (uleb128 (mm.iterList.filter (fun m => m.importRef.isNone)).length ++
            ((mm.iterList.filter (fun m => m.importRef.isNone)).map Memory.emit).flatten,
          (mm.iterList.filter (fun m => m.importRef.isNone)).map Memory.id)

/-- Error payload of the external decoder; the structure of the error is
irrelevant to this module, which only propagates it. -/
abbrev ParseError := Nat

/-- A decoded memory-type record as handed over by the external decoder:
shared flag, initial page count, optional maximum page count. -/
structure MemRecord where
  shared : Bool
  initial : Nat
  maximum : Option Nat
deriving DecidableEq

/-- Source `Module::parse_memories`: walk the decoded records in section order; for
each `Ok` record call `add_local` and push the returned id into the
index-mapping table; at the first `Err` stop and report it (records before it
have been added, records after it are not processed). -/
def parse_memories (mm : ModuleMemories) (ids : List MemoryId) :
    List (Except ParseError MemRecord) → ModuleMemories × List MemoryId × Option ParseError
  | [] => (mm, ids, none)
  | Except.error e :: _ => (mm, ids, some e)
  | Except.ok r :: rest =>
    parse_memories (mm.add_local r.shared r.initial r.maximum).2
      (ids ++ [(mm.add_local r.shared r.initial r.maximum).1]) rest

/-- Adding one local memory per record, in order, threading the id table:
the state `parse_memories` reaches after consuming a run of `Ok` records. -/
def addLocalsAcc (mm : ModuleMemories) (ids : List MemoryId) :
    List MemRecord → ModuleMemories × List MemoryId
  | [] => (mm, ids)
  | r :: rest =>
    addLocalsAcc (mm.add_local r.shared r.initial r.maximum).2
      (ids ++ [(mm.add_local r.shared r.initial r.maximum).1]) rest

/-- The binary encoding of one decoded record, per the flags-byte table. -/
def MemRecord.encode (r : MemRecord) : List Nat :=
  match r.maximum with
  | some mx => (if r.shared then 0x03 else 0x01) :: (uleb128 r.initial ++ uleb128 mx)
  | none => 0x00 :: uleb128 r.initial

/-- Modelled from the spec: the external decoder reads one canonical (minimal)
unsigned LEB128 integer; non-minimal encodings and non-byte values are
rejected, per the round-trip property's canonical-encoding hypothesis. -/
def decodeULEB : List Nat → Option (Nat × List Nat)
  | [] => none
  | b :: rest =>
    if b < 128 then some (b, rest)
    else if b < 256 then
      match decodeULEB rest with
      | some (m, rest1) => if 0 < m then some (b - 128 + 128 * m, rest1) else none
      | none => none
    else none

/-- Modelled from the spec: decode one memory-type record — a flags byte in
`{0x00, 0x01, 0x03}`, then `initial`, then (for `0x01`/`0x03`) `maximum`. -/
def decodeMemType : List Nat → Option (MemRecord × List Nat)
  | [] => none
  | flag :: rest =>
    if flag = 0x00 then
      match decodeULEB rest with
      | some (i, r1) => some (⟨false, i, none⟩, r1)
      | none => none
    else if flag = 0x01 ∨ flag = 0x03 then
      match decodeULEB rest with
      | some (i, r1) =>
        match decodeULEB r1 with
        | some (mx, r2) => some (⟨flag == 0x03, i, some mx⟩, r2)
        | none => none
      | none => none
    else none

/-- Modelled from the spec: decode `count` memory-type records. -/
def decodeRecords : Nat → List Nat → Option (List MemRecord × List Nat)
  | 0, bs => some ([], bs)
  | n + 1, bs =>
    match decodeMemType bs with
    | some (r, rest) =>
      match decodeRecords n rest with
      | some (rs, rest2) => some (r :: rs, rest2)
      | none => none
    | none => none

/-- Modelled from the spec: decode a whole memory-section body — `count`
followed by exactly `count` memory-type records, nothing left over. -/
def decodeMemorySection (bs : List Nat) : Option (List MemRecord) :=
  match decodeULEB bs with
  | some (count, rest) =>
    match decodeRecords count rest with
    | some (rs, []) => some rs
    | _ => none
  | none => none

/-- A mutation step on the collection, for stating id-stability over arbitrary
interleavings of creations and deletions. -/
inductive MemOp where
  | addLocal (shared : Bool) (initial : Nat) (maximum : Option Nat)
  | addImport (shared : Bool) (initial : Nat) (maximum : Option Nat) (imp : ImportId)
  | del (id : MemoryId)
deriving DecidableEq

/-- Apply one `MemOp`. -/
def applyOp (mm : ModuleMemories) : MemOp → ModuleMemories
  | MemOp.addLocal s i mx => (mm.add_local s i mx).2
  | MemOp.addImport s i mx imp => (mm.add_import s i mx imp).2
  | MemOp.del id => mm.delete id

/-- Apply a sequence of `MemOp`s, left to right. -/
def applyOps (mm : ModuleMemories) (ops : List MemOp) : ModuleMemories :=
  ops.foldl applyOp mm

/-- A mutation step on `MemoryData`, for stating the segment-group ordering
over arbitrary interleavings of absolute and relative insertions. -/
inductive DataOp where
  | abs (pos : Nat) (bytes : List Nat)
  | rel (g : GlobalId) (bytes : List Nat)
deriving DecidableEq

/-- Apply one `DataOp`. -/
def applyDataOp (d : MemoryData) : DataOp → MemoryData
  | DataOp.abs p b => d.add_absolute p b
  | DataOp.rel g b => d.add_relative g b

/-- Apply a sequence of `DataOp`s, left to right. -/
def applyDataOps (d : MemoryData) (ops : List DataOp) : MemoryData :=
  ops.foldl applyDataOp d

/-- The absolute segments contributed by a sequence of `DataOp`s, in order. -/
def absSegs : List DataOp → List (Nat × List Nat)
  | [] => []
  | DataOp.abs p b :: rest => (p, b) :: absSegs rest
  | DataOp.rel _ _ :: rest => absSegs rest

/-- The relative segments contributed by a sequence of `DataOp`s, in order. -/
def relSegs : List DataOp → List (GlobalId × List Nat)
  | [] => []
  | DataOp.abs _ _ :: rest => relSegs rest
  | DataOp.rel g b :: rest => (g, b) :: relSegs rest

/-- The arena slots produced by adding one local memory per record, the first
one receiving id `k`. -/
def localSlots : Nat → List MemRecord → List Slot
  | _, [] => []
  | k, r :: rest =>
    Slot.live ⟨k, r.shared, r.initial, r.maximum, none, MemoryData.default⟩ ::
      localSlots (k + 1) rest

/-- The memories produced by adding one local memory per record, the first one
receiving id `k`. -/
def memList : Nat → List MemRecord → List Memory
  | _, [] => []
  | k, r :: rest =>
    (⟨k, r.shared, r.initial, r.maximum, none, MemoryData.default⟩ : Memory) ::
      memList (k + 1) rest

/-- A list of `n` consecutive ids starting at `k`. -/
def idsFrom : Nat → Nat → List MemoryId
  | _, 0 => []
  | k, n + 1 => k :: idsFrom (k + 1) n

/-! ## Basic lemmas -/

theorem uleb128_small {n : Nat} (h : n < 128) : uleb128 n = [n] := by
  rw [uleb128]
  simp [h]

theorem uleb128_large {n : Nat} (h : 128 ≤ n) :
    uleb128 n = (n % 128 + 128) :: uleb128 (n / 128) := by
  rw [uleb128]
  simp [Nat.not_lt.mpr h]

theorem arena_get_eq (a : TombstoneArena) (id : Nat) (m : Memory) :
    a.get id = some m ↔ a.slots[id]? = some (Slot.live m) := by
  unfold TombstoneArena.get
  cases h : a.slots[id]? with
  | none => simp
  | some s => cases s <;> simp

theorem mem_iterAux {l : List Slot} {k : Nat} {p : Nat × Memory}
    (h : p ∈ iterAux k l) : k ≤ p.1 ∧ l[p.1 - k]? = some (Slot.live p.2) := by
  induction l generalizing k with
  | nil => simp [iterAux] at h
  | cons s rest ih =>
    cases s with
    | live m =>
      rw [iterAux, List.mem_cons] at h
      rcases h with h | h
      · subst h
        simp
      · have := ih h
        refine ⟨by omega, ?_⟩
        have hk : p.1 - k = (p.1 - (k + 1)) + 1 := by omega
        rw [hk, List.getElem?_cons_succ]
        exact this.2
    | dead m =>
      rw [iterAux] at h
      have := ih h
      refine ⟨by omega, ?_⟩
      have hk : p.1 - k = (p.1 - (k + 1)) + 1 := by omega
      rw [hk, List.getElem?_cons_succ]
      exact this.2

/-! ## MemoryData lemmas -/

theorem applyDataOps_segs (ops : List DataOp) (d : MemoryData) :
    (applyDataOps d ops).absolute = d.absolute ++ absSegs ops ∧
    (applyDataOps d ops).relative = d.relative ++ relSegs ops := by
  induction ops generalizing d with
  | nil => simp [applyDataOps, absSegs, relSegs]
  | cons op rest ih =>
    cases op with
    | abs p b =>
      have h := ih (d.add_absolute p b)
      simp only [applyDataOps, List.foldl_cons, applyDataOp] at h ⊢
      simp [MemoryData.add_absolute, absSegs, relSegs] at h ⊢
      simp [h.1, h.2]
    | rel g b =>
      have h := ih (d.add_relative g b)
      simp only [applyDataOps, List.foldl_cons, applyDataOp] at h ⊢
      simp [MemoryData.add_relative, absSegs, relSegs] at h ⊢
      simp [h.1, h.2]

/-! ## Claim C1: per-memory emission shape -/

/-- C1: emitting a `Memory` produces exactly the tabulated byte shape — tag
`0x00` then `initial` when no maximum; tag `0x01` (unshared) or `0x03` (shared)
then `initial` then `maximum` otherwise; and the two literal examples through
`add_local` then emit: `(shared := false, initial := 1, maximum := some 2)`
yields `[0x01, 0x01, 0x02]` and `(false, 1, none)` yields `[0x00, 0x01]`. -/
theorem memory_emit_shape (m : Memory) :
    (m.maximum = none → m.emit = 0x00 :: uleb128 m.initial) ∧
    (∀ mx, m.maximum = some mx → m.shared = false →
      m.emit = 0x01 :: (uleb128 m.initial ++ uleb128 mx)) ∧
    (∀ mx, m.maximum = some mx → m.shared = true →
      m.emit = 0x03 :: (uleb128 m.initial ++ uleb128 mx)) ∧
    ((ModuleMemories.empty.add_local false 1 (some 2)).2.get
        (ModuleMemories.empty.add_local false 1 (some 2)).1).map Memory.emit
      = some [0x01, 0x01, 0x02] ∧
    ((ModuleMemories.empty.add_local false 1 none).2.get
        (ModuleMemories.empty.add_local false 1 none).1).map Memory.emit
      = some [0x00, 0x01] := by
  refine ⟨?_, ?_, ?_, ?_, ?_⟩
  · intro h
    simp [Memory.emit, h]
  · intro mx h hs
    simp [Memory.emit, h, hs]
  · intro mx h hs
    simp [Memory.emit, h, hs]
  · simp [ModuleMemories.empty, ModuleMemories.add_local, ModuleMemories.get,
      TombstoneArena.get, TombstoneArena.alloc, TombstoneArena.next_id,
      Memory.emit, uleb128_small]
  · simp [ModuleMemories.empty, ModuleMemories.add_local, ModuleMemories.get,
      TombstoneArena.get, TombstoneArena.alloc, TombstoneArena.next_id,
      Memory.emit, uleb128_small]

/-- C1 witness: the no-maximum row of the table at a concrete memory. -/
theorem memory_emit_shape_witness :
    Memory.emit ⟨0, false, 7, none, none, MemoryData.default⟩ = 0x00 :: uleb128 7 :=
  (memory_emit_shape ⟨0, false, 7, none, none, MemoryData.default⟩).1 rfl

/-! ## Claim C9: shared memory without maximum emits as unshared -/

/-- C9: a `Memory` with `shared = true` and `maximum = none` emits tag `0x00`
followed by `initial`, byte-identical to the unshared memory with the same
`initial` and no maximum: the shared flag is silently dropped, emission is
total and produces no distinct representation for this case. -/
theorem memory_shared_nomax_emit (m : Memory) (_hs : m.shared = true)
    (hm : m.maximum = none) :
    m.emit = 0x00 :: uleb128 m.initial ∧
    m.emit = Memory.emit ⟨m.id, false, m.initial, none, m.importRef, m.data⟩ := by
  constructor <;> simp [Memory.emit, hm]

/-- C9 witness: a concrete shared, maximum-free memory. -/
theorem memory_shared_nomax_emit_witness :
    Memory.emit ⟨0, true, 5, none, none, MemoryData.default⟩ = 0x00 :: uleb128 5 ∧
    Memory.emit ⟨0, true, 5, none, none, MemoryData.default⟩ =
      Memory.emit ⟨0, false, 5, none, none, MemoryData.default⟩ :=
  memory_shared_nomax_emit ⟨0, true, 5, none, none, MemoryData.default⟩ rfl rfl

/-! ## Claim C10: absolute offsets are reinterpreted as signed 32-bit -/

/-- C10: `emit_data` and `into_iter` produce each absolute segment's offset as
the two's-complement reinterpretation `pos as i32`; for every `u32` position
`p ≥ 2^31` the emitted constant is `p - 2^32`, not `p`. -/
theorem memory_data_offset_cast (m : Memory) (d : MemoryData) (p : Nat)
    (h1 : 2 ^ 31 ≤ p) (h2 : p < 2 ^ 32) :
    m.emit_data = m.data.absolute.map (fun q => (InitExpr.Const (u32_as_i32 q.1), q.2)) ++
        m.data.relative.map (fun q => (InitExpr.Global q.1, q.2)) ∧
    d.into_iter = d.absolute.map (fun q => (InitExpr.Const (u32_as_i32 q.1), q.2)) ++
        d.relative.map (fun q => (InitExpr.Global q.1, q.2)) ∧
    u32_as_i32 p = (p : Int) - 2 ^ 32 := by
  refine ⟨rfl, rfl, ?_⟩
  rw [u32_as_i32, if_neg (by omega)]

/-- C10 witness: the smallest high position, `2^31`. -/
theorem memory_data_offset_cast_witness :
    u32_as_i32 2147483648 = (2147483648 : Int) - 2 ^ 32 :=
  (memory_data_offset_cast ⟨0, false, 0, none, none, MemoryData.default⟩
    MemoryData.default 2147483648 (by norm_num) (by norm_num)).2.2

/-! ## Claim C4: segment group ordering -/

/-- C4: for any starting `MemoryData` and any interleaved sequence of
`add_absolute`/`add_relative` calls, `emit_data` and `into_iter` yield all
absolute segments in insertion order (as constant-offset pairs) followed by
all relative segments in insertion order (as global-reference pairs); in
particular `add_relative g1 b1; add_absolute p1 b2; add_relative g2 b3` yields
`[(Const p1, b2), (Global g1, b1), (Global g2, b3)]`. -/
theorem memory_data_group_order (d : MemoryData) (ops : List DataOp) (m : Memory)
    (g1 g2 : GlobalId) (p1 : Nat) (b1 b2 b3 : List Nat) :
    (applyDataOps d ops).into_iter =
      (d.absolute ++ absSegs ops).map (fun q => (InitExpr.Const (u32_as_i32 q.1), q.2)) ++
        (d.relative ++ relSegs ops).map (fun q => (InitExpr.Global q.1, q.2)) ∧
    Memory.emit_data { m with data := applyDataOps d ops } =
      (d.absolute ++ absSegs ops).map (fun q => (InitExpr.Const (u32_as_i32 q.1), q.2)) ++
        (d.relative ++ relSegs ops).map (fun q => (InitExpr.Global q.1, q.2)) ∧
    (p1 < 2 ^ 31 →
      Memory.emit_data { m with data := applyDataOps MemoryData.default [DataOp.rel g1 b1, DataOp.abs p1 b2, DataOp.rel g2 b3] } =
        [(InitExpr.Const (p1 : Int), b2), (InitExpr.Global g1, b1),
          (InitExpr.Global g2, b3)]) := by
  obtain ⟨ha, hr⟩ := applyDataOps_segs ops d
  refine ⟨?_, ?_, ?_⟩
  · rw [MemoryData.into_iter, ha, hr]
  · rw [Memory.emit_data, ha, hr]
  · intro hp
    simp [Memory.emit_data, applyDataOps, applyDataOp, MemoryData.add_absolute,
      MemoryData.add_relative, MemoryData.default, u32_as_i32, hp]
    omega

/-- C4 witness: the literal three-call interleaving at concrete arguments. -/
theorem memory_data_group_order_witness :
    Memory.emit_data ⟨0, false, 0, none, none,
        applyDataOps MemoryData.default
          [DataOp.rel 1 [10], DataOp.abs 5 [20], DataOp.rel 2 [30]]⟩ =
      [(InitExpr.Const (5 : Int), [20]), (InitExpr.Global 1, [10]),
        (InitExpr.Global 2, [30])] :=
  (memory_data_group_order MemoryData.default [] ⟨0, false, 0, none, none,
    MemoryData.default⟩ 1 2 5 [10] [20] [30]).2.2 (by norm_num)

/-! ## Claim C8: creation populates fields and embeds the returned id -/

/-- C8: `add_import` allocates a memory whose fields equal the arguments, with
`importRef = some imp` and empty initializer data; `add_local` does the same
with `importRef = none`; both return the arena's next id, and the stored
record embeds the returned id. -/
theorem memory_add_spec (mm : ModuleMemories) (s : Bool) (i : Nat)
    (mx : Option Nat) (imp : ImportId) :
    (mm.add_import s i mx imp).1 = mm.arena.next_id ∧
    (mm.add_import s i mx imp).2.get (mm.add_import s i mx imp).1 =
      some ⟨(mm.add_import s i mx imp).1, s, i, mx, some imp, MemoryData.default⟩ ∧
    (mm.add_local s i mx).1 = mm.arena.next_id ∧
    (mm.add_local s i mx).2.get (mm.add_local s i mx).1 =
      some ⟨(mm.add_local s i mx).1, s, i, mx, none, MemoryData.default⟩ := by
  refine ⟨rfl, ?_, rfl, ?_⟩
  · rw [ModuleMemories.add_import, ModuleMemories.get, arena_get_eq]
    exact List.getElem?_concat_length _ _
  · rw [ModuleMemories.add_local, ModuleMemories.get, arena_get_eq]
    exact List.getElem?_concat_length _ _

/-! ## Arena preservation lemmas for id stability -/

theorem get_applyOp (mm : ModuleMemories) (id : MemoryId) (m : Memory) (op : MemOp)
    (hget : mm.get id = some m) (hop : op ≠ MemOp.del id) :
    (applyOp mm op).get id = some m := by
  rw [ModuleMemories.get, arena_get_eq] at hget
  have hlt : id < mm.arena.slots.length := (List.getElem?_eq_some.mp hget).1
  cases op with
  | addLocal s i mx =>
    rw [applyOp, ModuleMemories.add_local, ModuleMemories.get, arena_get_eq,
      TombstoneArena.alloc, List.getElem?_append_left hlt]
    exact hget
  | addImport s i mx imp =>
    rw [applyOp, ModuleMemories.add_import, ModuleMemories.get, arena_get_eq,
      TombstoneArena.alloc, List.getElem?_append_left hlt]
    exact hget
  | del id2 =>
    have hne : id2 ≠ id := fun h => hop (by rw [h])
    rw [applyOp, ModuleMemories.delete, TombstoneArena.delete]
    cases h2 : mm.arena.slots[id2]? with
    | none =>
      rw [ModuleMemories.get, arena_get_eq]
      exact hget
    | some s =>
      cases s with
      | live m2 =>
        rw [ModuleMemories.get, arena_get_eq]
        simpa [List.getElem?_set_ne hne] using hget
      | dead m2 =>
        rw [ModuleMemories.get, arena_get_eq]
        exact hget

theorem get_applyOps (ops : List MemOp) (mm : ModuleMemories) (id : MemoryId)
    (m : Memory) (hget : mm.get id = some m)
    (hops : ∀ op ∈ ops, op ≠ MemOp.del id) :
    (applyOps mm ops).get id = some m := by
  induction ops generalizing mm with
  | nil => exact hget
  | cons op rest ih =>
    rw [applyOps, List.foldl_cons]
    exact ih (applyOp mm op) (get_applyOp mm id m op hget (hops op (by simp)))
      (fun o ho => hops o (by simp [ho]))

/-! ## Claim C5: id stability across creations and deletions -/

/-- C5: an id returned by a creation call resolves via `get` to its original
record data across any further sequence of creations and deletions that does
not delete that id, and deleting one id never affects resolution of any other
live id. -/
theorem memory_id_stability (mm : ModuleMemories) (id id2 : MemoryId) (m : Memory)
    (s : Bool) (i : Nat) (mx : Option Nat) (imp : ImportId) (ops : List MemOp) :
    (mm.get id = some m → (∀ op ∈ ops, op ≠ MemOp.del id) →
      (applyOps mm ops).get id = some m) ∧
    ((∀ op ∈ ops, op ≠ MemOp.del (mm.add_local s i mx).1) →
      (applyOps (mm.add_local s i mx).2 ops).get (mm.add_local s i mx).1 =
        some ⟨(mm.add_local s i mx).1, s, i, mx, none, MemoryData.default⟩) ∧
    ((∀ op ∈ ops, op ≠ MemOp.del (mm.add_import s i mx imp).1) →
      (applyOps (mm.add_import s i mx imp).2 ops).get (mm.add_import s i mx imp).1 =
        some ⟨(mm.add_import s i mx imp).1, s, i, mx, some imp, MemoryData.default⟩) ∧
    (id ≠ id2 → (mm.delete id).get id2 = mm.get id2) := by
  refine ⟨?_, ?_, ?_, ?_⟩
  · intro hget hops
    exact get_applyOps ops mm id m hget hops
  · intro hops
    refine get_applyOps ops _ _ _ ?_ hops
    rw [ModuleMemories.add_local, ModuleMemories.get, arena_get_eq]
    exact List.getElem?_concat_length _ _
  · intro hops
    refine get_applyOps ops _ _ _ ?_ hops
    rw [ModuleMemories.add_import, ModuleMemories.get, arena_get_eq]
    exact List.getElem?_concat_length _ _
  · intro hne
    rw [ModuleMemories.delete, TombstoneArena.delete]
    cases h : mm.arena.slots[id]? with
    | none => rfl
    | some sl =>
      cases sl with
      | live m2 =>
        rw [ModuleMemories.get, ModuleMemories.get, TombstoneArena.get,
          TombstoneArena.get]
        rw [List.getElem?_set_ne hne]
      | dead m2 => rfl

/-- C5 witness: after creating ids 0 and 1 and deleting id 1, id 0 still
resolves to its original record. -/
theorem memory_id_stability_witness :
    (applyOps (ModuleMemories.empty.add_local false 1 none).2
        [MemOp.addLocal true 2 (some 3), MemOp.del 1]).get 0 =
      some ⟨0, false, 1, none, none, MemoryData.default⟩ :=
  (memory_id_stability ModuleMemories.empty 0 1
      ⟨0, false, 1, none, none, MemoryData.default⟩ false 1 none 0
      [MemOp.addLocal true 2 (some 3), MemOp.del 1]).2.1 (by decide)

/-! ## Claim C6: tombstone isolation after delete -/

/-- C6: after `delete id` of a live memory, `get id` fails (returns `none`,
modelling the abort) rather than stale or default data, iteration never
yields `id`, and the tombstoned slot holds the record finalized by the
`on_delete` hook exactly once: its initializer-segment lists are cleared. -/
theorem memory_delete_tombstone (mm : ModuleMemories) (id : MemoryId) (m : Memory)
    (hget : mm.get id = some m) :
    (mm.delete id).get id = none ∧
    (∀ p ∈ (mm.delete id).arena.iterPairs, p.1 ≠ id) ∧
    (mm.delete id).arena.slots[id]? =
      some (Slot.dead { m with data := MemoryData.default }) := by
  rw [ModuleMemories.get, arena_get_eq] at hget
  have hlt : id < mm.arena.slots.length := (List.getElem?_eq_some.mp hget).1
  have hdel : (mm.delete id).arena.slots =
      mm.arena.slots.set id (Slot.dead (Memory.on_delete m)) := by
    rw [ModuleMemories.delete, TombstoneArena.delete, hget]
  have hslot : (mm.delete id).arena.slots[id]? =
      some (Slot.dead (Memory.on_delete m)) := by
    rw [hdel, List.getElem?_set_self (by simpa using hlt)]
  refine ⟨?_, ?_, ?_⟩
  · rw [ModuleMemories.get, TombstoneArena.get, hslot]
  · intro p hp hpid
    have hmem := mem_iterAux hp
    rw [hpid] at hmem
    simp only [Nat.sub_zero] at hmem
    rw [hslot] at hmem
    exact Slot.noConfusion (Option.some.inj hmem.2)
  · rw [hslot]
    rfl

/-- C6 witness: delete the only memory of a one-memory collection. -/
theorem memory_delete_tombstone_witness :
    ((ModuleMemories.empty.add_local true 4 (some 9)).2.delete 0).get 0 = none ∧
    ((ModuleMemories.empty.add_local true 4 (some 9)).2.delete 0).arena.slots[0]? =
      some (Slot.dead ⟨0, true, 4, some 9, none, MemoryData.default⟩) :=
  ⟨(memory_delete_tombstone (ModuleMemories.empty.add_local true 4 (some 9)).2 0
      ⟨0, true, 4, some 9, none, MemoryData.default⟩ (by decide)).1,
   (memory_delete_tombstone (ModuleMemories.empty.add_local true 4 (some 9)).2 0
      ⟨0, true, 4, some 9, none, MemoryData.default⟩ (by decide)).2.2⟩

/-! ## Parse-adapter lemmas -/

theorem addLocalsAcc_slots (rs : List MemRecord) (mm : ModuleMemories) (ids : List MemoryId) :
    (addLocalsAcc mm ids rs).1.arena.slots
      = mm.arena.slots ++ localSlots mm.arena.slots.length rs := by
  induction rs generalizing mm ids with
  | nil => simp [addLocalsAcc, localSlots]
  | cons r rest ih =>
    rw [addLocalsAcc, ih]
    simp [ModuleMemories.add_local, TombstoneArena.alloc, TombstoneArena.next_id,
      localSlots]

theorem addLocalsAcc_ids (rs : List MemRecord) (mm : ModuleMemories) (ids : List MemoryId) :
    (addLocalsAcc mm ids rs).2 = ids ++ idsFrom mm.arena.next_id rs.length := by
  induction rs generalizing mm ids with
  | nil => simp [addLocalsAcc, idsFrom]
  | cons r rest ih =>
    rw [addLocalsAcc, ih]
    simp [ModuleMemories.add_local, TombstoneArena.alloc, TombstoneArena.next_id,
      idsFrom]

theorem parse_memories_ok (rs : List MemRecord) (mm : ModuleMemories) (ids : List MemoryId) :
    parse_memories mm ids (rs.map Except.ok)
      = ((addLocalsAcc mm ids rs).1, (addLocalsAcc mm ids rs).2, none) := by
  induction rs generalizing mm ids with
  | nil => rfl
  | cons r rest ih =>
    simpa [parse_memories, addLocalsAcc] using
      ih (mm.add_local r.shared r.initial r.maximum).2
        (ids ++ [(mm.add_local r.shared r.initial r.maximum).1])

theorem parse_memories_err (oks : List MemRecord) (e : ParseError)
    (rest : List (Except ParseError MemRecord)) (mm : ModuleMemories)
    (ids : List MemoryId) :
    parse_memories mm ids (oks.map Except.ok ++ Except.error e :: rest)
      = ((addLocalsAcc mm ids oks).1, (addLocalsAcc mm ids oks).2, some e) := by
  induction oks generalizing mm ids with
  | nil => rfl
  | cons r os ih =>
    simpa [parse_memories, addLocalsAcc] using
      ih (mm.add_local r.shared r.initial r.maximum).2
        (ids ++ [(mm.add_local r.shared r.initial r.maximum).1])

/-! ## Claim C7: the parse adapter -/

/-- C7: `parse_memories` walks the decoded records in section order, calling
`add_local` for each with that record's fields and pushing the returned
(consecutive) ids into the index-mapping table; at the first malformed record
it stops and returns the structured error — earlier records have been added,
later ones are untouched. -/
theorem parse_memories_spec (mm : ModuleMemories) (ids : List MemoryId)
    (oks rs : List MemRecord) (e : ParseError)
    (rest : List (Except ParseError MemRecord)) :
    parse_memories mm ids (rs.map Except.ok)
      = ((addLocalsAcc mm ids rs).1, (addLocalsAcc mm ids rs).2, none) ∧
    (addLocalsAcc mm ids rs).2 = ids ++ idsFrom mm.arena.next_id rs.length ∧
    parse_memories mm ids (oks.map Except.ok ++ Except.error e :: rest)
      = ((addLocalsAcc mm ids oks).1, (addLocalsAcc mm ids oks).2, some e) :=
  ⟨parse_memories_ok rs mm ids, addLocalsAcc_ids rs mm ids,
    parse_memories_err oks e rest mm ids⟩

/-! ## Claim C3: section emission -/

/-- C3: emitting a `ModuleMemories` writes nothing at all when there is no
live non-imported memory (in particular for a collection holding only imported
memories); otherwise it emits the count of live non-imported memories followed
by exactly those memories in live-iteration order, recording each memory's id
into the index-mapping table. -/
theorem memory_section_emit (mm : ModuleMemories) :
    (mm.iterList.filter (fun m => m.importRef.isNone) = [] → mm.emitSection = none) ∧
    (mm.iterList.filter (fun m => m.importRef.isNone) ≠ [] →
      mm.emitSection = some
        (uleb128 (mm.iterList.filter (fun m => m.importRef.isNone)).length ++
           ((mm.iterList.filter (fun m => m.importRef.isNone)).map Memory.emit).flatten,
         (mm.iterList.filter (fun m => m.importRef.isNone)).map Memory.id)) ∧
    (∀ s1 i1 mx1 imp1 s2 i2 mx2 imp2,
      (applyOps ModuleMemories.empty
        [MemOp.addImport s1 i1 mx1 imp1, MemOp.addImport s2 i2 mx2 imp2]).emitSection
        = none) := by
  refine ⟨?_, ?_, ?_⟩
  · intro h
    rw [ModuleMemories.emitSection, if_pos (by rw [h]; rfl)]
  · intro h
    rw [ModuleMemories.emitSection, if_neg (fun hl => h (List.length_eq_zero.mp hl))]
  · intro s1 i1 mx1 imp1 s2 i2 mx2 imp2
    simp [applyOps, applyOp, ModuleMemories.add_import, TombstoneArena.alloc,
      TombstoneArena.next_id, ModuleMemories.iterList, TombstoneArena.iterPairs,
      iterAux, ModuleMemories.emitSection, ModuleMemories.empty]

/-- C3 witness: the empty collection, a two-import collection, and a
one-local-memory collection. -/
theorem memory_section_emit_witness :
    ModuleMemories.empty.emitSection = none ∧
    (applyOps ModuleMemories.empty
        [MemOp.addImport false 1 none 0, MemOp.addImport true 2 (some 3) 1]).emitSection
      = none ∧
    (ModuleMemories.empty.add_local false 1 none).2.emitSection = some ([1, 0, 1], [0]) :=
  ⟨(memory_section_emit ModuleMemories.empty).1 rfl,
   (memory_section_emit ModuleMemories.empty).2.2 false 1 none 0 true 2 (some 3) 1,
   ((memory_section_emit (ModuleMemories.empty.add_local false 1 none).2).2.1
      (by decide)).trans (by simp [ModuleMemories.add_local, ModuleMemories.empty,
        TombstoneArena.alloc, TombstoneArena.next_id, ModuleMemories.iterList,
        TombstoneArena.iterPairs, iterAux, Memory.emit, uleb128_small])⟩

/-! ## Decoder soundness lemmas -/

theorem decodeULEB_sound (bs : List Nat) (n : Nat) (rest : List Nat)
    (h : decodeULEB bs = some (n, rest)) : bs = uleb128 n ++ rest := by
  induction bs generalizing n rest with
  | nil => simp [decodeULEB] at h
  | cons b t ih =>
    by_cases hb : b < 128
    · rw [decodeULEB, if_pos hb] at h
      obtain ⟨hn, hr⟩ := Prod.mk.injEq .. ▸ Option.some.inj h
      rw [← hn, ← hr, uleb128_small hb]
      rfl
    · by_cases hb2 : b < 256
      · rw [decodeULEB, if_neg hb, if_pos hb2] at h
        cases hd : decodeULEB t with
        | none => simp [hd] at h
        | some pr =>
          obtain ⟨m, rest1⟩ := pr
          simp only [hd] at h
          by_cases hm : 0 < m
          · rw [if_pos hm] at h
            obtain ⟨hn, hr⟩ := Prod.mk.injEq .. ▸ Option.some.inj h
            have ht := ih m rest1 hd
            have h128 : 128 ≤ n := by omega
            rw [uleb128_large h128]
            have hmod : n % 128 = b - 128 := by omega
            have hdiv : n / 128 = m := by omega
            rw [hmod, hdiv, ← hr, ht]
            have hhead : b - 128 + 128 = b := by omega
            rw [hhead]
            rfl
          · rw [if_neg hm] at h
            exact absurd h (by simp)
      · rw [decodeULEB, if_neg hb, if_neg hb2] at h
        exact absurd h (by simp)

theorem decodeMemType_sound (bs : List Nat) (r : MemRecord) (rest : List Nat)
    (h : decodeMemType bs = some (r, rest)) : bs = r.encode ++ rest := by
  cases bs with
  | nil => simp [decodeMemType] at h
  | cons flag t =>
    by_cases h0 : flag = 0x00
    · subst h0
      rw [decodeMemType, if_pos rfl] at h
      cases hd : decodeULEB t with
      | none => simp [hd] at h
      | some pr =>
        obtain ⟨i, r1⟩ := pr
        simp only [hd] at h
        obtain ⟨hr, hrest⟩ := Prod.mk.injEq .. ▸ Option.some.inj h
        rw [← hr, ← hrest]
        rw [decodeULEB_sound t i r1 hd]
        rfl
    · by_cases h13 : flag = 0x01 ∨ flag = 0x03
      · rw [decodeMemType, if_neg h0, if_pos h13] at h
        cases hd : decodeULEB t with
        | none => simp [hd] at h
        | some pr =>
          obtain ⟨i, r1⟩ := pr
          simp only [hd] at h
          cases hd2 : decodeULEB r1 with
          | none => simp [hd2] at h
          | some pr2 =>
            obtain ⟨mx, r2⟩ := pr2
            simp only [hd2] at h
            obtain ⟨hr, hrest⟩ := Prod.mk.injEq .. ▸ Option.some.inj h
            rw [← hr, ← hrest]
            rw [decodeULEB_sound t i r1 hd, decodeULEB_sound r1 mx r2 hd2]
            rcases h13 with h1 | h3
            · subst h1
              simp [MemRecord.encode]
            · subst h3
              simp [MemRecord.encode]
      · rw [decodeMemType, if_neg h0, if_neg h13] at h
        exact absurd h (by simp)

theorem decodeRecords_sound (n : Nat) (bs : List Nat) (rs : List MemRecord)
    (rest : List Nat) (h : decodeRecords n bs = some (rs, rest)) :
    bs = (rs.map MemRecord.encode).flatten ++ rest ∧ rs.length = n := by
  induction n generalizing bs rs rest with
  | zero =>
    rw [decodeRecords] at h
    obtain ⟨hr, hrest⟩ := Prod.mk.injEq .. ▸ Option.some.inj h
    rw [← hr, ← hrest]
    simp
  | succ k ih =>
    rw [decodeRecords] at h
    cases hd : decodeMemType bs with
    | none => simp [hd] at h
    | some pr =>
      obtain ⟨r, rest1⟩ := pr
      simp only [hd] at h
      cases hd2 : decodeRecords k rest1 with
      | none => simp [hd2] at h
      | some pr2 =>
        obtain ⟨rs1, rest2⟩ := pr2
        simp only [hd2] at h
        obtain ⟨hr, hrest⟩ := Prod.mk.injEq .. ▸ Option.some.inj h
        obtain ⟨hbs1, hlen⟩ := ih rest1 rs1 rest2 hd2
        rw [← hr, ← hrest]
        constructor
        · rw [decodeMemType_sound bs r rest1 hd, hbs1]
          simp
        · simp [hlen]

theorem decodeMemorySection_sound (bs : List Nat) (rs : List MemRecord)
    (h : decodeMemorySection bs = some rs) :
    bs = uleb128 rs.length ++ (rs.map MemRecord.encode).flatten := by
  rw [decodeMemorySection] at h
  cases hd : decodeULEB bs with
  | none => simp [hd] at h
  | some pr =>
    obtain ⟨count, rest⟩ := pr
    simp only [hd] at h
    cases hd2 : decodeRecords count rest with
    | none => simp [hd2] at h
    | some pr2 =>
      obtain ⟨rs1, rest2⟩ := pr2
      simp only [hd2] at h
      cases rest2 with
      | nil =>
        have hrs : rs1 = rs := Option.some.inj h
        subst hrs
        obtain ⟨hbs, hlen⟩ := decodeRecords_sound count rest rs1 [] hd2
        rw [decodeULEB_sound bs count rest hd, hbs, hlen]
        simp
      | cons x xs => simp at h

/-! ## Bridge lemmas: parsed memories and their emission -/

theorem iterAux_localSlots (rs : List MemRecord) (k : Nat) :
    (iterAux k (localSlots k rs)).map Prod.snd = memList k rs := by
  induction rs generalizing k with
  | nil => simp [localSlots, iterAux, memList]
  | cons r rest ih => simp [localSlots, iterAux, memList, ih]

theorem memList_filter (rs : List MemRecord) (k : Nat) :
    (memList k rs).filter (fun m => m.importRef.isNone) = memList k rs := by
  induction rs generalizing k with
  | nil => simp [memList]
  | cons r rest ih => simp [memList, List.filter_cons, ih]

theorem memList_length (rs : List MemRecord) (k : Nat) :
    (memList k rs).length = rs.length := by
  induction rs generalizing k with
  | nil => simp [memList]
  | cons r rest ih => simp [memList, ih]

theorem memList_emit (rs : List MemRecord) (k : Nat) :
    (memList k rs).map Memory.emit = rs.map MemRecord.encode := by
  induction rs generalizing k with
  | nil => simp [memList]
  | cons r rest ih =>
    rw [memList, List.map_cons, List.map_cons, ih]
    cases hm : r.maximum <;> simp [Memory.emit, MemRecord.encode, hm]

/-! ## Claim C2: parse-then-emit round-trip -/

/-- C2 (amended): decoding a valid, canonically-encoded memory section that
declares at least one memory, feeding the decoded records through
`parse_memories` on a fresh collection, and re-emitting yields byte-identical
output.  (The unamended claim also covers the zero-count section, where the
emitter omits the section instead; see the counterexample.) -/
theorem memory_roundtrip (bs : List Nat) (rs : List MemRecord)
    (hdec : decodeMemorySection bs = some rs) (hne : rs ≠ []) :
    ((parse_memories ModuleMemories.empty [] (rs.map Except.ok)).1.emitSection).map
      Prod.fst = some bs := by
  rw [parse_memories_ok]
  have hslots : (addLocalsAcc ModuleMemories.empty [] rs).1.arena.slots
      = localSlots 0 rs := by
    have h := addLocalsAcc_slots rs ModuleMemories.empty []
    simpa [ModuleMemories.empty] using h
  have hiter : (addLocalsAcc ModuleMemories.empty [] rs).1.iterList = memList 0 rs := by
    rw [ModuleMemories.iterList, TombstoneArena.iterPairs, hslots]
    exact iterAux_localSlots rs 0
  have hlen : ¬((addLocalsAcc ModuleMemories.empty [] rs).1.iterList.filter
      (fun m => m.importRef.isNone)).length = 0 := by
    rw [hiter, memList_filter, memList_length]
    intro hzero
    exact hne (List.length_eq_zero.mp hzero)
  rw [ModuleMemories.emitSection, if_neg hlen, hiter, memList_filter, memList_length,
    memList_emit]
  rw [decodeMemorySection_sound bs rs hdec]
  rfl

/-- C2 counterexample: the byte string `[0x00]` is a valid, canonically-encoded
memory section (count zero, no records, each — vacuously — minimal), yet
parsing it and re-emitting produces no section at all rather than the original
byte. -/
theorem memory_roundtrip_empty_cex :
    decodeMemorySection [0x00] = some [] ∧
    ((parse_memories ModuleMemories.empty []
        (([] : List MemRecord).map Except.ok)).1.emitSection).map Prod.fst = none := by
  constructor
  · decide
  · rfl

/-- C2 witness: a one-record canonical section round-trips byte-identically. -/
theorem memory_roundtrip_witness :
    ((parse_memories ModuleMemories.empty []
        ([(⟨false, 5, none⟩ : MemRecord)].map Except.ok)).1.emitSection).map Prod.fst
      = some [0x01, 0x00, 0x05] :=
  memory_roundtrip [0x01, 0x00, 0x05] [⟨false, 5, none⟩] (by decide) (by decide)
